import Mathlib

/-!
Verification of the side-commit capture module (src/codelog/commit.py).

The module orchestrates the external git binary through a command executor
(_run_git_command).  We give git a small operational semantics: a `GitState`
records the working directory, the primary staging area (.git/index), HEAD,
the current branch, the content-addressed object store (trees and commits),
the branch references, and the temporary index files living inside the .git
directory.  Each git sub-command used by the module becomes a `GitCmd`
constructor; `rawGit` is its semantics.  A `failures` field injects
command failures from the environment (disk errors, concurrent mutation,
and so on), so that error-handling claims can quantify over failures of any
cause.  Failed commands leave the state unchanged and model stdout trailing
newlines as already absent (their removal is the uncontroversial part of the
strip in `_run_git_command`); the meaningful leading whitespace of porcelain
status lines is kept.

Python functions are translated one-for-one into explicit state-passing
functions returning `Except String α × GitState`: a `.error` result is a
raised `RuntimeError`, and the state is returned on both outcomes because
side effects performed before a Python exception persist.
-/

namespace Codelog

/-- Git sub-commands invoked by src/codelog/commit.py.  `readTree`, `addU`
and `writeTree` carry the optional GIT_INDEX_FILE environment override
(`none` means the primary index is used). -/
inductive GitCmd where
  | statusPorcelain
  | revParseHead
  | revParseAbbrevRef
  | revParseShort
  | revParseGitDir
  | mktree
  | readTree (tree : String) (indexFile : String)
  | addU (indexFile : Option String)
  | writeTree (indexFile : Option String)
  | commitTree (tree : String) (parent : Option String)
  | branchCreate (name : String) (commit : String)
  deriving Repr, DecidableEq

/-- Association-list lookup by key (file paths, hashes, branch names). -/
def assocFind {α : Type} : List (String × α) → String → Option α
  | [], _ => none
  | (k, v) :: rest, key => if k = key then some v else assocFind rest key

/-- Association-list update modelling a file write: the path gets the new
content, every other binding is kept. -/
def assocSet {α : Type} (l : List (String × α)) (k : String) (v : α) :
    List (String × α) :=
  (k, v) :: l.filter (fun e => e.1 ≠ k)

/-- Association-list removal modelling file deletion (os.unlink). -/
def assocErase {α : Type} (l : List (String × α)) (k : String) :
    List (String × α) :=
  l.filter (fun e => e.1 ≠ k)

/-- Content-addressed insertion: a git object already present is left as is,
a new one is added. -/
def assocInsertNew {α : Type} (l : List (String × α)) (k : String) (v : α) :
    List (String × α) :=
  if (assocFind l k).isSome then l else (k, v) :: l

/-- Python str.strip(): remove leading and trailing whitespace. -/
def pyStrip (s : String) : String :=
  ⟨((s.data.dropWhile Char.isWhitespace).reverse.dropWhile Char.isWhitespace).reverse⟩

/-- Trailing-whitespace-only trimming, following the words of the spec for
the command executor ("return standard output with trailing whitespace
trimmed"); to be compared with the source's str.strip() = `pyStrip`. -/
def specTrailingTrim (s : String) : String :=
  ⟨(s.data.reverse.dropWhile Char.isWhitespace).reverse⟩

/-- Content encoding of tree entries, used to build content-addressed names
for the objects produced by the modelled git engine. -/
def encodeEntries (l : List (String × String)) : String :=
  String.intercalate "," (l.map (fun e => e.1 ++ ":" ++ e.2))

/-- Hash of a tree object. -/
def treeHashOf (l : List (String × String)) : String :=
  "tree(" ++ encodeEntries l ++ ")"

/-- Hash of a commit object with the given tree and optional parent. -/
def commitHashOf (t : String) (parent : Option String) : String :=
  "commit(" ++ t ++ "," ++ parent.getD "root" ++ ")"

/-- Abbreviated commit hash (git rev-parse --short). -/
def shortHash (h : String) : String := h.take 7

/-- State of one git repository as seen through the commands the module
uses.  `index = none` models a missing-or-empty primary index file (the
source treats both identically), `some entries` an index of positive size.
`failures` is the set of commands the environment makes fail. -/
structure GitState where
  workdir : List (String × String)
  index : Option (List (String × String))
  head : Option String
  branch : Option String
  trees : List (String × List (String × String))
  commits : List (String × (String × Option String))
  branches : List (String × String)
  tempIndexFiles : List (String × List (String × String))
  failures : List GitCmd
  deriving Repr, DecidableEq

/-- Entries of the primary index; a missing index reads as empty. -/
def indexEntries (s : GitState) : List (String × String) :=
  s.index.getD []

/-- Entries of the tree of the commit HEAD points at (empty when HEAD or one
of the objects does not resolve). -/
def headTreeEntries (s : GitState) : List (String × String) :=
  match s.head with
  | none => []
  | some h =>
    match assocFind s.commits h with
    | none => []
    | some (t, _) => (assocFind s.trees t).getD []

/-- Paths recorded in the primary index (the tracked/staged set). -/
def trackedPaths (s : GitState) : List String :=
  (indexEntries s).map Prod.fst

/-- Working-directory paths not recorded in the index (untracked files). -/
def untrackedPaths (s : GitState) : List String :=
  (s.workdir.map Prod.fst).filter (fun p => (assocFind (indexEntries s) p).isNone)

/-- Porcelain status lines for index-vs-HEAD differences (staged changes). -/
def stagedLines (s : GitState) : List String :=
  ((indexEntries s).filterMap (fun e =>
    match assocFind (headTreeEntries s) e.1 with
    | none => some ("A  " ++ e.1)
    | some c => if c = e.2 then none else some ("M  " ++ e.1)))
  ++ ((headTreeEntries s).filterMap (fun e =>
    if (assocFind (indexEntries s) e.1).isSome then none
    else some ("D  " ++ e.1)))

/-- Porcelain status lines for workdir-vs-index differences (unstaged
changes); note the leading space git prints for these. -/
def unstagedLines (s : GitState) : List String :=
  (indexEntries s).filterMap (fun e =>
    match assocFind s.workdir e.1 with
    | none => some (" D " ++ e.1)
    | some c => if c = e.2 then none else some (" M " ++ e.1))

/-- Porcelain status lines for untracked files. -/
def untrackedLines (s : GitState) : List String :=
  s.workdir.filterMap (fun e =>
    if (assocFind (indexEntries s) e.1).isSome then none
    else some ("?? " ++ e.1))

/-- Output lines of git status --porcelain: empty iff the repository is
clean. -/
def statusLines (s : GitState) : List String :=
  stagedLines s ++ unstagedLines s ++ untrackedLines s

/-- Object-store integrity at HEAD: if HEAD resolves to a hash, that commit
object exists and its tree object exists.  Always true of a real repository;
stated because the model allows dangling references. -/
def headResolves (s : GitState) : Bool :=
  match s.head with
  | none => true
  | some h =>
    match assocFind s.commits h with
    | none => false
    | some (t, _) => (assocFind s.trees t).isSome

/-- Integrity of the empty-tree object: if the store has an object under the
empty tree's name, it is the empty tree. -/
def emptyTreeOk (s : GitState) : Bool :=
  match assocFind s.trees (treeHashOf []) with
  | none => true
  | some e => decide (e = [])

/-- Semantics of git add -u on an index: every recorded path still present
in the working directory is refreshed to its working-directory content,
every recorded path deleted from the working directory is dropped; no new
path enters the index. -/
def addUUpdate (entries workdir : List (String × String)) : List (String × String) :=
  entries.filterMap (fun e =>
    match assocFind workdir e.1 with
    | some c => some (e.1, c)
    | none => none)

/-- Semantics of one git command: output and successor state, or an error.
A command listed in `failures` fails without effect. -/
def rawGit (cmd : GitCmd) (s : GitState) : Except String String × GitState :=
  if cmd ∈ s.failures then (Except.error "injected failure", s) else
  match cmd with
  | .statusPorcelain => (Except.ok (String.intercalate "\n" (statusLines s)), s)
  | .revParseHead =>
    match s.head with
    | some h => (Except.ok h, s)
    | none => (Except.error "ambiguous argument HEAD", s)
  | .revParseAbbrevRef =>
    match s.head, s.branch with
    | none, _ => (Except.error "ambiguous argument HEAD", s)
    | some _, some b => (Except.ok b, s)
    | some _, none => (Except.ok "HEAD", s)
  | .revParseShort =>
    match s.head with
    | some h => (Except.ok (shortHash h), s)
    | none => (Except.error "ambiguous argument HEAD", s)
  | .revParseGitDir => (Except.ok ".git", s)
  | .mktree =>
    (Except.ok (treeHashOf []),
      { s with trees := assocInsertNew s.trees (treeHashOf []) [] })
  | .readTree t idx =>
    match assocFind s.trees t with
    | some entries =>
      (Except.ok "",
        { s with tempIndexFiles := assocSet s.tempIndexFiles idx entries })
    | none => (Except.error "not a valid tree object", s)
  | .addU idxOpt =>
    match idxOpt with
    | none =>
      (Except.ok "",
        { s with index := some (addUUpdate (indexEntries s) s.workdir) })
    | some p =>
      (Except.ok "",
        { s with tempIndexFiles := (assocSet s.tempIndexFiles p
            (addUUpdate ((assocFind s.tempIndexFiles p).getD []) s.workdir)) })
  | .writeTree idxOpt =>
    let entries := match idxOpt with
      | none => indexEntries s
      | some p => (assocFind s.tempIndexFiles p).getD []
    (Except.ok (treeHashOf entries),
      { s with trees := assocInsertNew s.trees (treeHashOf entries) entries })
  | .commitTree t par =>
    match assocFind s.trees t with
    | none => (Except.error "not a valid tree object", s)
    | some _ =>
      match par with
      | some p =>
        if (assocFind s.commits p).isSome then
          (Except.ok (commitHashOf t par),
            { s with commits := assocInsertNew s.commits (commitHashOf t par) (t, par) })
        else (Except.error "not a valid commit object", s)
      | none =>
        (Except.ok (commitHashOf t none),
          { s with commits := assocInsertNew s.commits (commitHashOf t none) (t, none) })
  | .branchCreate name c =>
    if (assocFind s.branches name).isSome then
      (Except.error "branch already exists", s)
    else if (assocFind s.commits c).isSome then
      (Except.ok "", { s with branches := (name, c) :: s.branches })
    else (Except.error "not a valid object name", s)

/-- Translation of _run_git_command (commit.py lines 28-60): run the
command; on success return stdout stripped of whitespace (Python
str.strip()), on failure raise RuntimeError("Git command failed: ..."). -/
def run_git_command (cmd : GitCmd) (s : GitState) : Except String String × GitState :=
  match rawGit cmd s with
  | (Except.ok out, s1) => (Except.ok (pyStrip out), s1)
  | (Except.error e, s1) => (Except.error ("Git command failed: " ++ e), s1)

/-- Translation of _get_git_dir (lines 63-77): git rev-parse --git-dir,
resolved against the repository path (the model works with the relative
".git" directly). -/
def get_git_dir (s : GitState) : Except String String × GitState :=
  run_git_command GitCmd.revParseGitDir s

/-- Path of the temporary index file generated for one capture:
git_dir / "index.tmp.{instance_id}.{pid}" (line 93). -/
def tempIndexPathOf (instanceId : String) (pid : Nat) : String :=
  ".git" ++ "/index.tmp." ++ instanceId ++ "." ++ toString pid

/-- Effect of pathlib touch: create an empty file if the path is free, leave
an existing file untouched. -/
def touchFile (l : List (String × List (String × String))) (p : String) :
    List (String × List (String × String)) :=
  if (assocFind l p).isSome then l else (p, []) :: l

/-- Translation of _create_temporary_index (lines 80-113).  The uuid token
and the process id are parameters of the model.  If the primary index file
exists with positive size its bytes are copied over the temporary path
(shutil.copy2 overwrites silently); otherwise git mktree / git read-tree
initialise the temporary index to the empty tree, falling back to touch.
Returns the temporary path and the GIT_INDEX_FILE environment override. -/
def create_temporary_index (instanceId : String) (pid : Nat) (s : GitState) :
    Except String (String × Option String) × GitState :=
  match get_git_dir s with
  | (Except.error e, s1) => (Except.error e, s1)
  | (Except.ok gitDir, s1) =>
    let tempIndex := gitDir ++ "/index.tmp." ++ instanceId ++ "." ++ toString pid
    match s1.index with
    | some entries =>
      (Except.ok (tempIndex, some tempIndex),
        { s1 with tempIndexFiles := assocSet s1.tempIndexFiles tempIndex entries })
    | none =>
      match run_git_command GitCmd.mktree s1 with
      | (Except.ok emptyTree, s2) =>
        match run_git_command (GitCmd.readTree emptyTree tempIndex) s2 with
        | (Except.ok _, s3) => (Except.ok (tempIndex, some tempIndex), s3)
        | (Except.error _, s3) =>
          (Except.ok (tempIndex, some tempIndex),
            { s3 with tempIndexFiles := touchFile s3.tempIndexFiles tempIndex })
      | (Except.error _, s2) =>
        (Except.ok (tempIndex, some tempIndex),
          { s2 with tempIndexFiles := touchFile s2.tempIndexFiles tempIndex })

/-- Translation of _cleanup_temporary_index (lines 116-125): os.unlink with
FileNotFoundError absorbed, so removal is total and idempotent. -/
def cleanup_temporary_index (tempIndexPath : String) (s : GitState) : GitState :=
  { s with tempIndexFiles := assocErase s.tempIndexFiles tempIndexPath }

/-- Translation of _add_tracked_files_to_temp_index (lines 161-173): git
add -u against the given index override, every RuntimeError absorbed.  The
function is total: it never propagates an error. -/
def add_tracked_files_to_temp_index (env : Option String) (s : GitState) : GitState :=
  match run_git_command (GitCmd.addU env) s with
  | (Except.ok _, s1) => s1
  | (Except.error _, s1) => s1

/-- Translation of _is_working_directory_clean (lines 176-187): clean iff
git status --porcelain prints nothing after stripping. -/
def is_working_directory_clean (s : GitState) : Except String Bool × GitState :=
  match run_git_command GitCmd.statusPorcelain s with
  | (Except.ok out, s1) => (Except.ok (pyStrip out == ""), s1)
  | (Except.error e, s1) => (Except.error e, s1)

/-- Translation of _get_current_branch_or_commit (lines 190-209): branch
name, or short hash when detached, with any RuntimeError replaced by the
fixed fallback "new". -/
def get_current_branch_or_commit (s : GitState) : String × GitState :=
  match run_git_command GitCmd.revParseAbbrevRef s with
  | (Except.ok branchName, s1) =>
    if branchName = "HEAD" then
      match run_git_command GitCmd.revParseShort s1 with
      | (Except.ok h, s2) => (h, s2)
      | (Except.error _, s2) => ("new", s2)
    else (branchName, s1)
  | (Except.error _, s1) => ("new", s1)

/-- Translation of get_most_recent_commit_hash (lines 212-224). -/
def get_most_recent_commit_hash (s : GitState) : Except String String × GitState :=
  run_git_command GitCmd.revParseHead s

/-- Translation of get_commit_hash (lines 227-245): HEAD hash when the
working directory is clean, none otherwise. -/
def get_commit_hash (s : GitState) : Except String (Option String) × GitState :=
  match is_working_directory_clean s with
  | (Except.error e, s1) => (Except.error e, s1)
  | (Except.ok false, s1) => (Except.ok none, s1)
  | (Except.ok true, s1) =>
    match run_git_command GitCmd.revParseHead s1 with
    | (Except.ok h, s2) => (Except.ok (some h), s2)
    | (Except.error e, s2) => (Except.error e, s2)

/-- Branch name built at line 316:
"{prefix}_{current}_side-commit_{timestamp}_{pid}". -/
def branchNameOf (pre current : String) (timestamp pid : Nat) : String :=
  pre ++ "_" ++ current ++ "_side-commit_" ++ toString timestamp ++ "_" ++ toString pid

/-- Translation of the commit-and-branch tail of the try block of
make_side_commit (lines 339-345): git commit-tree with the resolved parent
list, then git branch. -/
def make_side_commit_finish (branchName treeHash : String) (parent : Option String)
    (s : GitState) : Except String String × GitState :=
  match run_git_command (GitCmd.commitTree treeHash parent) s with
  | (Except.error e, s1) => (Except.error e, s1)
  | (Except.ok commitHash, s1) =>
    match run_git_command (GitCmd.branchCreate branchName commitHash) s1 with
    | (Except.error e, s2) => (Except.error e, s2)
    | (Except.ok _, s2) => (Except.ok commitHash, s2)

/-- Translation of the try block of make_side_commit (lines 321-345):
populate the temporary index, write the tree, resolve HEAD as parent with
every failure absorbed (root-commit fallback), create commit and branch. -/
def make_side_commit_try (branchName : String) (indexEnv : Option String)
    (s : GitState) : Except String String × GitState :=
  let s1 := add_tracked_files_to_temp_index indexEnv s
  match run_git_command (GitCmd.writeTree indexEnv) s1 with
  | (Except.error e, s2) => (Except.error e, s2)
  | (Except.ok treeHash, s2) =>
    match run_git_command GitCmd.revParseHead s2 with
    | (Except.ok currentHead, s3) =>
      make_side_commit_finish branchName treeHash (some currentHead) s3
    | (Except.error _, s3) =>
      make_side_commit_finish branchName treeHash none s3

/-- Translation of the non-short-circuit part of make_side_commit (lines
310-349): compute the unique branch name, create the temporary index, run
the try block, and always clean the temporary index up (finally). -/
def make_side_commit_main (pre instanceId : String) (pid timestamp : Nat)
    (s : GitState) : Except String String × GitState :=
  let bc := get_current_branch_or_commit s
  let branchName := branchNameOf pre bc.1 timestamp pid
  match create_temporary_index instanceId pid bc.2 with
  | (Except.error e, s2) => (Except.error e, s2)
  | (Except.ok (tempIndexPath, indexEnv), s2) =>
    let r := make_side_commit_try branchName indexEnv s2
    (r.1, cleanup_temporary_index tempIndexPath r.2)

/-- Translation of make_side_commit (lines 281-349): short-circuit to the
HEAD hash when not forced and clean, otherwise run the capture path. -/
def make_side_commit (pre : String) (force : Bool) (instanceId : String)
    (pid timestamp : Nat) (s : GitState) : Except String String × GitState :=
  if force then make_side_commit_main pre instanceId pid timestamp s
  else
    match is_working_directory_clean s with
    | (Except.error e, s1) => (Except.error e, s1)
    | (Except.ok true, s1) => run_git_command GitCmd.revParseHead s1
    | (Except.ok false, s1) => make_side_commit_main pre instanceId pid timestamp s1


/-! Basic facts about the association-list and object-store primitives. -/

theorem assocFind_set_self {α : Type} (l : List (String × α)) (k : String) (v : α) :
    assocFind (assocSet l k v) k = some v := by
  simp [assocSet, assocFind]

theorem assocFind_filter_ne_self {α : Type} (l : List (String × α)) (k : String) :
    assocFind (l.filter (fun e => e.1 ≠ k)) k = none := by
  induction l with
  | nil => rfl
  | cons e rest ih =>
    by_cases he : e.1 = k
    · simpa [List.filter_cons, he] using ih
    · simpa [List.filter_cons, he, assocFind] using ih

theorem assocFind_erase_self {α : Type} (l : List (String × α)) (k : String) :
    assocFind (assocErase l k) k = none :=
  assocFind_filter_ne_self l k

/-- Monotone growth of a content-addressed store: the old list is a suffix of
the new one and every old binding is still found. -/
structure Grows {α : Type} (l l1 : List (String × α)) : Prop where
  suffix : l <:+ l1
  find_pres : ∀ k v, assocFind l k = some v → assocFind l1 k = some v

theorem Grows.refl_grows {α : Type} (l : List (String × α)) : Grows l l :=
  ⟨List.suffix_rfl, fun _ _ h => h⟩

theorem Grows.trans_grows {α : Type} {l l1 l2 : List (String × α)}
    (g1 : Grows l l1) (g2 : Grows l1 l2) : Grows l l2 :=
  ⟨g1.suffix.trans g2.suffix, fun k v h => g2.find_pres k v (g1.find_pres k v h)⟩

theorem grows_insertNew {α : Type} (l : List (String × α)) (k : String) (v : α) :
    Grows l (assocInsertNew l k v) := by
  unfold assocInsertNew
  by_cases hk : (assocFind l k).isSome
  · simpa [hk] using Grows.refl_grows l
  · refine ⟨by simp [hk], ?_⟩
    intro k0 v0 h0
    by_cases hkk : k = k0
    · subst hkk
      simp [h0] at hk
    · simpa [hk, assocFind, hkk] using h0

/-- Frame of one capture step: the user-visible repository state (working
directory, primary index, HEAD, current branch) is unchanged and the object
store only grows. -/
structure PreservesCore (s s1 : GitState) : Prop where
  workdir_eq : s1.workdir = s.workdir
  index_eq : s1.index = s.index
  head_eq : s1.head = s.head
  branch_eq : s1.branch = s.branch
  trees_grow : Grows s.trees s1.trees
  commits_grow : Grows s.commits s1.commits

theorem PreservesCore.refl_core (s : GitState) : PreservesCore s s :=
  ⟨Eq.refl _, Eq.refl _, Eq.refl _, Eq.refl _, Grows.refl_grows _, Grows.refl_grows _⟩

theorem PreservesCore.trans_core {s s1 s2 : GitState}
    (h1 : PreservesCore s s1) (h2 : PreservesCore s1 s2) : PreservesCore s s2 :=
  ⟨h2.workdir_eq.trans h1.workdir_eq, h2.index_eq.trans h1.index_eq,
   h2.head_eq.trans h1.head_eq, h2.branch_eq.trans h1.branch_eq,
   h1.trees_grow.trans_grows h2.trees_grow, h1.commits_grow.trans_grows h2.commits_grow⟩

theorem core_update_trees (s : GitState) (k : String) (v : List (String × String)) :
    PreservesCore s { s with trees := assocInsertNew s.trees k v } :=
  ⟨Eq.refl _, Eq.refl _, Eq.refl _, Eq.refl _, grows_insertNew _ _ _, Grows.refl_grows _⟩

theorem core_update_commits (s : GitState) (k : String) (v : String × Option String) :
    PreservesCore s { s with commits := assocInsertNew s.commits k v } :=
  ⟨Eq.refl _, Eq.refl _, Eq.refl _, Eq.refl _, Grows.refl_grows _, grows_insertNew _ _ _⟩

theorem core_update_temp (s : GitState) (l : List (String × List (String × String))) :
    PreservesCore s { s with tempIndexFiles := l } :=
  ⟨Eq.refl _, Eq.refl _, Eq.refl _, Eq.refl _, Grows.refl_grows _, Grows.refl_grows _⟩

theorem core_update_branches (s : GitState) (l : List (String × String)) :
    PreservesCore s { s with branches := l } :=
  ⟨Eq.refl _, Eq.refl _, Eq.refl _, Eq.refl _, Grows.refl_grows _, Grows.refl_grows _⟩

/-! Frame facts for individual git commands. -/

theorem rawGit_core (cmd : GitCmd) (s : GitState) (h : cmd ≠ GitCmd.addU none) :
    PreservesCore s (rawGit cmd s).2 := by
  unfold rawGit
  split
  · exact PreservesCore.refl_core s
  cases cmd with
  | statusPorcelain => exact PreservesCore.refl_core s
  | revParseHead => cases s.head <;> exact PreservesCore.refl_core s
  | revParseAbbrevRef => cases s.head <;> cases s.branch <;> exact PreservesCore.refl_core s
  | revParseShort => cases s.head <;> exact PreservesCore.refl_core s
  | revParseGitDir => exact PreservesCore.refl_core s
  | mktree => exact core_update_trees s _ _
  | readTree t idx =>
    rcases hf : assocFind s.trees t with _ | entries
    · simpa [hf] using PreservesCore.refl_core s
    · simpa [hf] using core_update_temp s _
  | addU idxOpt =>
    cases idxOpt with
    | none => exact (h (Eq.refl _)).elim
    | some p => exact core_update_temp s _
  | writeTree idxOpt => exact core_update_trees s _ _
  | commitTree t par =>
    rcases hf : assocFind s.trees t with _ | entries
    · simpa [hf] using PreservesCore.refl_core s
    · cases par with
      | none => simpa [hf] using core_update_commits s _ _
      | some p =>
        by_cases hp : (assocFind s.commits p).isSome
        · simpa [hf, hp] using core_update_commits s _ _
        · simpa [hf, hp] using PreservesCore.refl_core s
  | branchCreate n c =>
    by_cases hn : (assocFind s.branches n).isSome
    · simpa [hn] using PreservesCore.refl_core s
    · by_cases hc : (assocFind s.commits c).isSome
      · simpa [hn, hc] using core_update_branches s _
      · simpa [hn, hc] using PreservesCore.refl_core s

theorem rawGit_branches_eq (cmd : GitCmd) (s : GitState)
    (h : ∀ n c, cmd ≠ GitCmd.branchCreate n c) :
    (rawGit cmd s).2.branches = s.branches := by
  unfold rawGit
  split
  · rfl
  cases cmd with
  | statusPorcelain => rfl
  | revParseHead => cases s.head <;> rfl
  | revParseAbbrevRef => cases s.head <;> cases s.branch <;> rfl
  | revParseShort => cases s.head <;> rfl
  | revParseGitDir => rfl
  | mktree => rfl
  | readTree t idx => rcases hf : assocFind s.trees t with _ | entries <;> simp [hf]
  | addU idxOpt => cases idxOpt <;> rfl
  | writeTree idxOpt => rfl
  | commitTree t par =>
    rcases hf : assocFind s.trees t with _ | entries
    · simp [hf]
    · cases par with
      | none => simp [hf]
      | some p =>
        by_cases hp : (assocFind s.commits p).isSome <;> simp [hf, hp]
  | branchCreate n c => exact (h n c (Eq.refl _)).elim

theorem rawGit_branchCreate_branches (n c : String) (s : GitState) :
    (rawGit (GitCmd.branchCreate n c) s).2.branches = s.branches ∨
    (rawGit (GitCmd.branchCreate n c) s).2.branches = (n, c) :: s.branches := by
  unfold rawGit
  split
  · exact Or.inl (Eq.refl _)
  by_cases hn : (assocFind s.branches n).isSome
  · simp [hn]
  · by_cases hc : (assocFind s.commits c).isSome <;> simp [hn, hc]

theorem run_git_command_snd (cmd : GitCmd) (s : GitState) :
    (run_git_command cmd s).2 = (rawGit cmd s).2 := by
  unfold run_git_command
  rcases h : rawGit cmd s with ⟨r, st⟩
  cases r <;> simp [h]


theorem rawGit_status_snd (s : GitState) : (rawGit GitCmd.statusPorcelain s).2 = s := by
  unfold rawGit; split <;> rfl

theorem rawGit_head_snd (s : GitState) : (rawGit GitCmd.revParseHead s).2 = s := by
  unfold rawGit; split
  · rfl
  · cases s.head <;> rfl

theorem rawGit_abbrev_snd (s : GitState) : (rawGit GitCmd.revParseAbbrevRef s).2 = s := by
  unfold rawGit; split
  · rfl
  · cases s.head <;> cases s.branch <;> rfl

theorem rawGit_short_snd (s : GitState) : (rawGit GitCmd.revParseShort s).2 = s := by
  unfold rawGit; split
  · rfl
  · cases s.head <;> rfl

theorem rawGit_gitdir_snd (s : GitState) : (rawGit GitCmd.revParseGitDir s).2 = s := by
  unfold rawGit; split <;> rfl

theorem run_core (cmd : GitCmd) (s : GitState) (h : cmd ≠ GitCmd.addU none) :
    PreservesCore s (run_git_command cmd s).2 := by
  rw [run_git_command_snd]; exact rawGit_core cmd s h

theorem run_branches_eq (cmd : GitCmd) (s : GitState)
    (h : ∀ n c, cmd ≠ GitCmd.branchCreate n c) :
    (run_git_command cmd s).2.branches = s.branches := by
  rw [run_git_command_snd]; exact rawGit_branches_eq cmd s h

/-- Transport of a readonly-command fact through a destructured run. -/
theorem snd_eq_of_run {cmd : GitCmd} {s s1 : GitState} {r : Except String String}
    (hsnd : (rawGit cmd s).2 = s) (heq : run_git_command cmd s = (r, s1)) :
    s1 = s := by
  have h1 := (run_git_command_snd cmd s).trans hsnd
  rw [heq] at h1; exact h1

/-- Transport of the core frame through a destructured run. -/
theorem core_of_run {cmd : GitCmd} {s s1 : GitState} {r : Except String String}
    (h : cmd ≠ GitCmd.addU none) (heq : run_git_command cmd s = (r, s1)) :
    PreservesCore s s1 := by
  have h1 := run_core cmd s h
  rw [heq] at h1; exact h1

/-- Transport of branch-set preservation through a destructured run. -/
theorem branches_of_run {cmd : GitCmd} {s s1 : GitState} {r : Except String String}
    (h : ∀ n c, cmd ≠ GitCmd.branchCreate n c)
    (heq : run_git_command cmd s = (r, s1)) :
    s1.branches = s.branches := by
  have h1 := run_branches_eq cmd s h
  rw [heq] at h1; exact h1

theorem is_working_directory_clean_snd (s : GitState) :
    (is_working_directory_clean s).2 = s := by
  unfold is_working_directory_clean
  split
  next out s1 heq => exact snd_eq_of_run (rawGit_status_snd s) heq
  next e s1 heq => exact snd_eq_of_run (rawGit_status_snd s) heq

theorem get_current_branch_or_commit_snd (s : GitState) :
    (get_current_branch_or_commit s).2 = s := by
  unfold get_current_branch_or_commit
  split
  next b s1 heq =>
    have hs1 : s1 = s := snd_eq_of_run (rawGit_abbrev_snd s) heq
    split
    next hb =>
      split
      next h2 s2 heq2 => exact (snd_eq_of_run (rawGit_short_snd s1) heq2).trans hs1
      next e s2 heq2 => exact (snd_eq_of_run (rawGit_short_snd s1) heq2).trans hs1
    next hb => exact hs1
  next e s1 heq => exact snd_eq_of_run (rawGit_abbrev_snd s) heq

theorem cleanup_core (p : String) (s : GitState) :
    PreservesCore s (cleanup_temporary_index p s) :=
  core_update_temp s _

theorem add_tracked_frame (p : String) (s : GitState) :
    PreservesCore s (add_tracked_files_to_temp_index (some p) s) ∧
    (add_tracked_files_to_temp_index (some p) s).branches = s.branches := by
  unfold add_tracked_files_to_temp_index
  split
  next o s1 heq =>
    exact ⟨core_of_run (by simp) heq, branches_of_run (by intro n c; simp) heq⟩
  next e s1 heq =>
    exact ⟨core_of_run (by simp) heq, branches_of_run (by intro n c; simp) heq⟩

theorem touchFile_core (s : GitState) (p : String) :
    PreservesCore s { s with tempIndexFiles := touchFile s.tempIndexFiles p } :=
  core_update_temp s _

theorem create_temp_frame (instanceId : String) (pid : Nat) (s : GitState) :
    PreservesCore s (create_temporary_index instanceId pid s).2 ∧
    (create_temporary_index instanceId pid s).2.branches = s.branches := by
  unfold create_temporary_index get_git_dir
  split
  next e s1 heq =>
    have hs1 : s1 = s := snd_eq_of_run (rawGit_gitdir_snd s) heq
    rw [hs1]
    exact ⟨PreservesCore.refl_core s, rfl⟩
  next g s1 heq =>
    have hs1 : s1 = s := snd_eq_of_run (rawGit_gitdir_snd s) heq
    split
    next entries hidx =>
      rw [hs1]
      exact ⟨core_update_temp s _, rfl⟩
    next hidx =>
      split
      next emptyTree s2 heq2 =>
        have hc2 : PreservesCore s1 s2 := core_of_run (by simp) heq2
        have hb2 : s2.branches = s1.branches := branches_of_run (by intro n c; simp) heq2
        dsimp only
        split
        next o s3 heq3 =>
          have hc3 : PreservesCore s2 s3 := core_of_run (by simp) heq3
          have hb3 : s3.branches = s2.branches := branches_of_run (by intro n c; simp) heq3
          rw [← hs1]
          exact ⟨hc2.trans_core hc3, hb3.trans hb2⟩
        next e s3 heq3 =>
          have hc3 : PreservesCore s2 s3 := core_of_run (by simp) heq3
          have hb3 : s3.branches = s2.branches := branches_of_run (by intro n c; simp) heq3
          rw [← hs1]
          exact ⟨(hc2.trans_core hc3).trans_core (touchFile_core s3 _), hb3.trans hb2⟩
      next e s2 heq2 =>
        have hc2 : PreservesCore s1 s2 := core_of_run (by simp) heq2
        have hb2 : s2.branches = s1.branches := branches_of_run (by intro n c; simp) heq2
        rw [← hs1]
        exact ⟨hc2.trans_core (touchFile_core s2 _), hb2⟩

theorem create_temp_env (instanceId : String) (pid : Nat) (s s2 : GitState)
    (p : String) (env : Option String)
    (h : create_temporary_index instanceId pid s = (Except.ok (p, env), s2)) :
    env = some p := by
  unfold create_temporary_index get_git_dir at h
  split at h
  next e s1 heq => exact absurd (congrArg Prod.fst h) (by simp)
  next g s1 heq =>
    split at h
    next entries hidx =>
      have := congrArg Prod.fst h
      simp at this
      rw [← this.2, this.1]
    next hidx =>
      split at h
      next emptyTree s2m heq2 =>
        dsimp only at h
        split at h
        next o s3 heq3 =>
          have := congrArg Prod.fst h
          simp at this
          rw [← this.2, this.1]
        next e s3 heq3 =>
          have := congrArg Prod.fst h
          simp at this
          rw [← this.2, this.1]
      next e s2m heq2 =>
        have := congrArg Prod.fst h
        simp at this
        rw [← this.2, this.1]

theorem run_branchCreate_branches (n c : String) (s : GitState) :
    (run_git_command (GitCmd.branchCreate n c) s).2.branches = s.branches ∨
    (run_git_command (GitCmd.branchCreate n c) s).2.branches = (n, c) :: s.branches := by
  rw [run_git_command_snd]
  unfold rawGit
  split
  · exact Or.inl rfl
  by_cases hn : (assocFind s.branches n).isSome
  · simp [hn]
  · by_cases hc : (assocFind s.commits c).isSome <;> simp [hn, hc]

theorem finish_frame (branchName treeHash : String) (parent : Option String)
    (s : GitState) :
    PreservesCore s (make_side_commit_finish branchName treeHash parent s).2 ∧
    ((make_side_commit_finish branchName treeHash parent s).2.branches = s.branches ∨
      ∃ n c, (make_side_commit_finish branchName treeHash parent s).2.branches =
        (n, c) :: s.branches) := by
  unfold make_side_commit_finish
  split
  next e s1 heq =>
    exact ⟨core_of_run (by simp) heq,
      Or.inl (branches_of_run (by intro n c; simp) heq)⟩
  next commitHash s1 heq =>
    have hc1 : PreservesCore s s1 := core_of_run (by simp) heq
    have hb1 : s1.branches = s.branches := branches_of_run (by intro n c; simp) heq
    split
    next e s2 heq2 =>
      have hc2 : PreservesCore s1 s2 := core_of_run (by simp) heq2
      have hb2 := run_branchCreate_branches branchName commitHash s1
      rw [heq2] at hb2
      refine ⟨hc1.trans_core hc2, ?_⟩
      rcases hb2 with hb2 | hb2
      · exact Or.inl (hb2.trans hb1)
      · exact Or.inr ⟨branchName, commitHash, by rw [hb2, hb1]⟩
    next o s2 heq2 =>
      have hc2 : PreservesCore s1 s2 := core_of_run (by simp) heq2
      have hb2 := run_branchCreate_branches branchName commitHash s1
      rw [heq2] at hb2
      refine ⟨hc1.trans_core hc2, ?_⟩
      rcases hb2 with hb2 | hb2
      · exact Or.inl (hb2.trans hb1)
      · exact Or.inr ⟨branchName, commitHash, by rw [hb2, hb1]⟩

theorem try_frame (branchName : String) (p : String) (s : GitState) :
    PreservesCore s (make_side_commit_try branchName (some p) s).2 ∧
    ((make_side_commit_try branchName (some p) s).2.branches = s.branches ∨
      ∃ n c, (make_side_commit_try branchName (some p) s).2.branches =
        (n, c) :: s.branches) := by
  unfold make_side_commit_try
  have ha := add_tracked_frame p s
  dsimp only
  split
  next e s2 heq =>
    have hc2 : PreservesCore (add_tracked_files_to_temp_index (some p) s) s2 :=
      core_of_run (by simp) heq
    have hb2 : s2.branches = (add_tracked_files_to_temp_index (some p) s).branches :=
      branches_of_run (by intro n c; simp) heq
    exact ⟨ha.1.trans_core hc2, Or.inl (hb2.trans ha.2)⟩
  next treeHash s2 heq =>
    have hc2 : PreservesCore (add_tracked_files_to_temp_index (some p) s) s2 :=
      core_of_run (by simp) heq
    have hb2 : s2.branches = (add_tracked_files_to_temp_index (some p) s).branches :=
      branches_of_run (by intro n c; simp) heq
    have hcs2 : PreservesCore s s2 := ha.1.trans_core hc2
    have hbs2 : s2.branches = s.branches := hb2.trans ha.2
    split
    next currentHead s3 heq3 =>
      have hc3 : PreservesCore s2 s3 := core_of_run (by simp) heq3
      have hb3 : s3.branches = s2.branches := branches_of_run (by intro n c; simp) heq3
      have hf := finish_frame branchName treeHash (some currentHead) s3
      refine ⟨(hcs2.trans_core hc3).trans_core hf.1, ?_⟩
      rcases hf.2 with hh | ⟨n, c, hh⟩
      · exact Or.inl (hh.trans (hb3.trans hbs2))
      · exact Or.inr ⟨n, c, by rw [hh, hb3, hbs2]⟩
    next e s3 heq3 =>
      have hc3 : PreservesCore s2 s3 := core_of_run (by simp) heq3
      have hb3 : s3.branches = s2.branches := branches_of_run (by intro n c; simp) heq3
      have hf := finish_frame branchName treeHash none s3
      refine ⟨(hcs2.trans_core hc3).trans_core hf.1, ?_⟩
      rcases hf.2 with hh | ⟨n, c, hh⟩
      · exact Or.inl (hh.trans (hb3.trans hbs2))
      · exact Or.inr ⟨n, c, by rw [hh, hb3, hbs2]⟩

theorem main_frame (pre instanceId : String) (pid timestamp : Nat) (s : GitState) :
    PreservesCore s (make_side_commit_main pre instanceId pid timestamp s).2 ∧
    ((make_side_commit_main pre instanceId pid timestamp s).2.branches = s.branches ∨
      ∃ n c, (make_side_commit_main pre instanceId pid timestamp s).2.branches =
        (n, c) :: s.branches) := by
  unfold make_side_commit_main
  have hbc : (get_current_branch_or_commit s).2 = s := get_current_branch_or_commit_snd s
  dsimp only
  split
  next e s2 heq =>
    have h1 := create_temp_frame instanceId pid (get_current_branch_or_commit s).2
    rw [heq, hbc] at h1
    exact ⟨h1.1, Or.inl h1.2⟩
  next tempIndexPath indexEnv s2 heq =>
    have h1 := create_temp_frame instanceId pid (get_current_branch_or_commit s).2
    rw [heq, hbc] at h1
    have henv : indexEnv = some tempIndexPath := by
      apply create_temp_env instanceId pid (get_current_branch_or_commit s).2 s2 tempIndexPath indexEnv
      rw [hbc] at heq ⊢
      exact heq
    subst henv
    have h2 := try_frame (branchNameOf pre (get_current_branch_or_commit s).1 timestamp pid)
      tempIndexPath s2
    have h3 := cleanup_core tempIndexPath
      (make_side_commit_try (branchNameOf pre (get_current_branch_or_commit s).1 timestamp pid)
        (some tempIndexPath) s2).2
    refine ⟨(h1.1.trans_core h2.1).trans_core h3, ?_⟩
    have hb3 : (cleanup_temporary_index tempIndexPath
        (make_side_commit_try (branchNameOf pre (get_current_branch_or_commit s).1 timestamp pid)
          (some tempIndexPath) s2).2).branches =
        (make_side_commit_try (branchNameOf pre (get_current_branch_or_commit s).1 timestamp pid)
          (some tempIndexPath) s2).2.branches := rfl
    rcases h2.2 with hh | ⟨n, c, hh⟩
    · exact Or.inl (hb3.trans (hh.trans h1.2))
    · exact Or.inr ⟨n, c, by rw [hb3, hh, h1.2]⟩

theorem make_side_commit_core (pre : String) (force : Bool) (instanceId : String)
    (pid timestamp : Nat) (s : GitState) :
    PreservesCore s (make_side_commit pre force instanceId pid timestamp s).2 ∧
    ((make_side_commit pre force instanceId pid timestamp s).2.branches = s.branches ∨
      ∃ n c, (make_side_commit pre force instanceId pid timestamp s).2.branches =
        (n, c) :: s.branches) := by
  unfold make_side_commit
  split
  · exact main_frame pre instanceId pid timestamp s
  · split
    next e s1 heq =>
      have hs1 : s1 = s := by
        have := is_working_directory_clean_snd s
        rw [heq] at this; exact this
      rw [hs1]
      exact ⟨PreservesCore.refl_core s, Or.inl rfl⟩
    next s1 heq =>
      have hs1 : s1 = s := by
        have := is_working_directory_clean_snd s
        rw [heq] at this; exact this
      rw [hs1]
      refine ⟨run_core GitCmd.revParseHead s (by simp), ?_⟩
      exact Or.inl (run_branches_eq GitCmd.revParseHead s (by intro n c; simp))
    next s1 heq =>
      have hs1 : s1 = s := by
        have := is_working_directory_clean_snd s
        rw [heq] at this; exact this
      rw [hs1]
      exact main_frame pre instanceId pid timestamp s

theorem indexEntries_of_core {s s1 : GitState} (hc : PreservesCore s s1) :
    indexEntries s1 = indexEntries s := by
  unfold indexEntries; rw [hc.index_eq]

theorem headTree_of_core {s s1 : GitState} (hc : PreservesCore s s1)
    (hr : headResolves s = true) : headTreeEntries s1 = headTreeEntries s := by
  unfold headTreeEntries
  rw [hc.head_eq]
  cases hh : s.head with
  | none => rfl
  | some h =>
    unfold headResolves at hr
    rw [hh] at hr
    dsimp only at hr ⊢
    cases hcm : assocFind s.commits h with
    | none => rw [hcm] at hr; simp at hr
    | some tp =>
      obtain ⟨t, par⟩ := tp
      rw [hcm] at hr
      dsimp only at hr
      cases hts : assocFind s.trees t with
      | none => rw [hts] at hr; simp at hr
      | some e =>
        have h1 : assocFind s1.commits h = some (t, par) :=
          hc.commits_grow.find_pres _ _ hcm
        have h2 : assocFind s1.trees t = some e :=
          hc.trees_grow.find_pres _ _ hts
        simp [h1, hcm, h2, hts]

theorem trackedPaths_of_core {s s1 : GitState} (hc : PreservesCore s s1) :
    trackedPaths s1 = trackedPaths s := by
  unfold trackedPaths; rw [indexEntries_of_core hc]

theorem untrackedPaths_of_core {s s1 : GitState} (hc : PreservesCore s s1) :
    untrackedPaths s1 = untrackedPaths s := by
  unfold untrackedPaths; rw [indexEntries_of_core hc, hc.workdir_eq]

theorem statusLines_of_core {s s1 : GitState} (hc : PreservesCore s s1)
    (hr : headResolves s = true) : statusLines s1 = statusLines s := by
  unfold statusLines stagedLines unstagedLines untrackedLines
  rw [indexEntries_of_core hc, headTree_of_core hc hr, hc.workdir_eq]

/-- Claim C1: for every repository whose object store is intact at HEAD and
for every call to the capture operation make_side_commit, regardless of
success or failure, the working-directory file contents, the primary
staging area (.git/index), HEAD, the current branch, and the
tracked/staged/untracked status are identical before and after the call;
the object store only ever grows (the old trees and commits are a suffix of
the new ones) and at most one new branch reference is added. -/
theorem make_side_commit_frame (pre : String) (force : Bool) (instanceId : String)
    (pid timestamp : Nat) (s : GitState) (hr : headResolves s = true) :
    (make_side_commit pre force instanceId pid timestamp s).2.workdir = s.workdir ∧
    (make_side_commit pre force instanceId pid timestamp s).2.index = s.index ∧
    (make_side_commit pre force instanceId pid timestamp s).2.head = s.head ∧
    (make_side_commit pre force instanceId pid timestamp s).2.branch = s.branch ∧
    trackedPaths (make_side_commit pre force instanceId pid timestamp s).2 = trackedPaths s ∧
    untrackedPaths (make_side_commit pre force instanceId pid timestamp s).2 = untrackedPaths s ∧
    statusLines (make_side_commit pre force instanceId pid timestamp s).2 = statusLines s ∧
    s.trees <:+ (make_side_commit pre force instanceId pid timestamp s).2.trees ∧
    s.commits <:+ (make_side_commit pre force instanceId pid timestamp s).2.commits ∧
    ((make_side_commit pre force instanceId pid timestamp s).2.branches = s.branches ∨
      ∃ n c, (make_side_commit pre force instanceId pid timestamp s).2.branches =
        (n, c) :: s.branches) := by
  obtain ⟨hc, hb⟩ := make_side_commit_core pre force instanceId pid timestamp s
  exact ⟨hc.workdir_eq, hc.index_eq, hc.head_eq, hc.branch_eq,
    trackedPaths_of_core hc, untrackedPaths_of_core hc, statusLines_of_core hc hr,
    hc.trees_grow.suffix, hc.commits_grow.suffix, hb⟩

/-- Clean one-commit repository used as a concrete test input. -/
def repoA : GitState :=
  { workdir := [("f", "x")], index := some [("f", "x")], head := some "h0",
    branch := some "main", trees := [("t0", [("f", "x")])],
    commits := [("h0", ("t0", none))], branches := [("main", "h0")],
    tempIndexFiles := [], failures := [] }

/-- The same repository with one modified tracked file and one untracked
file. -/
def repoDirty : GitState :=
  { repoA with workdir := [("f", "y"), ("u", "z")] }

/-- Witness for claim C1 at a concrete dirty repository. -/
theorem make_side_commit_frame_witness :
    headResolves repoDirty = true ∧
    ((make_side_commit "p" false "abc" 42 7 repoDirty).2.workdir = repoDirty.workdir ∧
    (make_side_commit "p" false "abc" 42 7 repoDirty).2.index = repoDirty.index ∧
    (make_side_commit "p" false "abc" 42 7 repoDirty).2.head = repoDirty.head ∧
    (make_side_commit "p" false "abc" 42 7 repoDirty).2.branch = repoDirty.branch ∧
    trackedPaths (make_side_commit "p" false "abc" 42 7 repoDirty).2 = trackedPaths repoDirty ∧
    untrackedPaths (make_side_commit "p" false "abc" 42 7 repoDirty).2 = untrackedPaths repoDirty ∧
    statusLines (make_side_commit "p" false "abc" 42 7 repoDirty).2 = statusLines repoDirty ∧
    repoDirty.trees <:+ (make_side_commit "p" false "abc" 42 7 repoDirty).2.trees ∧
    repoDirty.commits <:+ (make_side_commit "p" false "abc" 42 7 repoDirty).2.commits ∧
    ((make_side_commit "p" false "abc" 42 7 repoDirty).2.branches = repoDirty.branches ∨
      ∃ n c, (make_side_commit "p" false "abc" 42 7 repoDirty).2.branches =
        (n, c) :: repoDirty.branches)) :=
  ⟨by decide, make_side_commit_frame "p" false "abc" 42 7 repoDirty (by decide)⟩

/-- Claim C2: whenever make_side_commit creates a temporary index (the
creation step returned a path), the final state holds no file at that path
on every exit path, and the overall result is exactly the try block's
result followed by the cleanup: a failure of tree writing, commit creation
or branch creation inside the try block propagates unchanged to the caller
while cleanup still runs. -/
theorem make_side_commit_cleanup (pre instanceId : String) (pid timestamp : Nat)
    (s s2 : GitState) (p : String) (env : Option String)
    (hcr : create_temporary_index instanceId pid (get_current_branch_or_commit s).2 =
      (Except.ok (p, env), s2)) :
    assocFind (make_side_commit_main pre instanceId pid timestamp s).2.tempIndexFiles p = none ∧
    make_side_commit_main pre instanceId pid timestamp s =
      ((make_side_commit_try (branchNameOf pre (get_current_branch_or_commit s).1 timestamp pid)
          env s2).1,
        cleanup_temporary_index p
          (make_side_commit_try (branchNameOf pre (get_current_branch_or_commit s).1 timestamp pid)
            env s2).2) := by
  unfold make_side_commit_main
  dsimp only
  rw [hcr]
  exact ⟨assocFind_erase_self _ p, rfl⟩

/-- State of `repoA` right after its primary index has been copied to the
temporary index path. -/
def repoATemp : GitState :=
  { repoA with tempIndexFiles := [(".git/index.tmp.abc.42", [("f", "x")])] }

/-- Witness for claim C2 at a concrete repository. -/
theorem make_side_commit_cleanup_witness :
    create_temporary_index "abc" 42 (get_current_branch_or_commit repoA).2 =
      (Except.ok (".git/index.tmp.abc.42", some ".git/index.tmp.abc.42"), repoATemp) ∧
    (assocFind (make_side_commit_main "p" "abc" 42 7 repoA).2.tempIndexFiles
        ".git/index.tmp.abc.42" = none ∧
      make_side_commit_main "p" "abc" 42 7 repoA =
        ((make_side_commit_try (branchNameOf "p" (get_current_branch_or_commit repoA).1 7 42)
            (some ".git/index.tmp.abc.42") repoATemp).1,
          cleanup_temporary_index ".git/index.tmp.abc.42"
            (make_side_commit_try (branchNameOf "p" (get_current_branch_or_commit repoA).1 7 42)
              (some ".git/index.tmp.abc.42") repoATemp).2)) :=
  ⟨by rfl, make_side_commit_cleanup "p" "abc" 42 7 repoA repoATemp
    ".git/index.tmp.abc.42" (some ".git/index.tmp.abc.42") (by rfl)⟩

theorem is_clean_of_statusLines (s : GitState)
    (hf : GitCmd.statusPorcelain ∉ s.failures) (hcl : statusLines s = []) :
    is_working_directory_clean s = (Except.ok true, s) := by
  have h1 : rawGit GitCmd.statusPorcelain s = (Except.ok "", s) := by
    unfold rawGit
    rw [if_neg hf, hcl]
    rfl
  unfold is_working_directory_clean run_git_command
  rw [h1]
  rfl

theorem run_head_some (s : GitState) (h : String)
    (hf : GitCmd.revParseHead ∉ s.failures) (hh : s.head = some h) :
    run_git_command GitCmd.revParseHead s = (Except.ok (pyStrip h), s) := by
  have h1 : rawGit GitCmd.revParseHead s = (Except.ok h, s) := by
    unfold rawGit
    rw [if_neg hf, hh]
  unfold run_git_command
  rw [h1]

theorem run_head_none (s : GitState)
    (hf : GitCmd.revParseHead ∉ s.failures) (hh : s.head = none) :
    run_git_command GitCmd.revParseHead s =
      (Except.error ("Git command failed: " ++ "ambiguous argument HEAD"), s) := by
  have h1 : rawGit GitCmd.revParseHead s =
      (Except.error "ambiguous argument HEAD", s) := by
    unfold rawGit
    rw [if_neg hf, hh]
  unfold run_git_command
  rw [h1]

/-- Claim C3: on a clean repository whose HEAD resolves to `h` (written
without surrounding whitespace), make_side_commit with force = false
returns `h` and leaves the state untouched — no temporary index, no new
branch — while with force = true it runs the full capture path. -/
theorem make_side_commit_clean_fast (pre instanceId : String) (pid timestamp : Nat)
    (s : GitState) (h : String) (hf : s.failures = []) (hcl : statusLines s = [])
    (hh : s.head = some h) (hws : pyStrip h = h) :
    make_side_commit pre false instanceId pid timestamp s = (Except.ok h, s) ∧
    make_side_commit pre true instanceId pid timestamp s =
      make_side_commit_main pre instanceId pid timestamp s := by
  constructor
  · unfold make_side_commit
    rw [if_neg (by simp)]
    rw [is_clean_of_statusLines s (by simp [hf]) hcl]
    dsimp only
    rw [run_head_some s h (by simp [hf]) hh, hws]
  · unfold make_side_commit
    rw [if_pos rfl]

/-- Witness for claim C3 at a concrete clean repository. -/
theorem make_side_commit_clean_fast_witness :
    repoA.failures = [] ∧ statusLines repoA = [] ∧ repoA.head = some "h0" ∧
    pyStrip "h0" = "h0" ∧
    (make_side_commit "p" false "abc" 42 7 repoA = (Except.ok "h0", repoA) ∧
      make_side_commit "p" true "abc" 42 7 repoA =
        make_side_commit_main "p" "abc" 42 7 repoA) :=
  ⟨rfl, by decide, rfl, by decide,
    make_side_commit_clean_fast "p" "abc" 42 7 repoA "h0" rfl (by decide) rfl (by decide)⟩

/-- Claim C10: on a clean repository that has no commits yet,
make_side_commit with force = false raises the RuntimeError coming from the
HEAD resolution of the fast path instead of returning a hash or the "new"
fallback; the "new" fallback belongs to the naming helper
_get_current_branch_or_commit used only on the forced/dirty path. -/
theorem make_side_commit_empty_clean_raises (pre instanceId : String)
    (pid timestamp : Nat) (s : GitState) (hf : s.failures = [])
    (hcl : statusLines s = []) (hh : s.head = none) :
    make_side_commit pre false instanceId pid timestamp s =
      (Except.error ("Git command failed: " ++ "ambiguous argument HEAD"), s) ∧
    get_current_branch_or_commit s = ("new", s) := by
  constructor
  · unfold make_side_commit
    rw [if_neg (by simp)]
    rw [is_clean_of_statusLines s (by simp [hf]) hcl]
    dsimp only
    exact run_head_none s (by simp [hf]) hh
  · have h1 : rawGit GitCmd.revParseAbbrevRef s =
        (Except.error "ambiguous argument HEAD", s) := by
      unfold rawGit
      rw [if_neg (by simp [hf]), hh]
    have h2 : run_git_command GitCmd.revParseAbbrevRef s =
        (Except.error ("Git command failed: " ++ "ambiguous argument HEAD"), s) := by
      unfold run_git_command
      rw [h1]
    unfold get_current_branch_or_commit
    rw [h2]

/-- Clean repository with no commits yet (fresh git init). -/
def repoEmpty : GitState :=
  { workdir := [], index := none, head := none, branch := some "main",
    trees := [], commits := [], branches := [], tempIndexFiles := [],
    failures := [] }

/-- Witness for claim C10 at a fresh empty repository. -/
theorem make_side_commit_empty_clean_raises_witness :
    repoEmpty.failures = [] ∧ statusLines repoEmpty = [] ∧ repoEmpty.head = none ∧
    (make_side_commit "p" false "abc" 42 7 repoEmpty =
      (Except.error ("Git command failed: " ++ "ambiguous argument HEAD"), repoEmpty) ∧
      get_current_branch_or_commit repoEmpty = ("new", repoEmpty)) :=
  ⟨rfl, by decide, rfl,
    make_side_commit_empty_clean_raises "p" "abc" 42 7 repoEmpty rfl (by decide) rfl⟩

theorem mem_dropWhile_not {α : Type} (p : α → Bool) (c : α) (hc : p c = false)
    (l : List α) : c ∈ l → c ∈ l.dropWhile p := by
  induction l with
  | nil => intro h; simp at h
  | cons a t ih =>
    intro h
    rw [List.dropWhile_cons]
    by_cases hp : p a = true
    · rw [if_pos hp]
      rcases List.mem_cons.mp h with h1 | h1
      · rw [h1] at hc; rw [hc] at hp; cases hp
      · exact ih h1
    · rw [if_neg hp]
      exact h

theorem mem_pyStrip (s : String) (c : Char) (hc : c ∈ s.data)
    (hw : c.isWhitespace = false) : c ∈ (pyStrip s).data := by
  show c ∈ ((s.data.dropWhile Char.isWhitespace).reverse.dropWhile
    Char.isWhitespace).reverse
  apply List.mem_reverse.mpr
  apply mem_dropWhile_not _ _ hw
  apply List.mem_reverse.mpr
  exact mem_dropWhile_not _ _ hw _ hc

theorem pyStrip_ne_empty (s : String) (c : Char) (hc : c ∈ s.data)
    (hw : c.isWhitespace = false) : pyStrip s ≠ "" := by
  intro h
  have h1 := mem_pyStrip s c hc hw
  rw [h] at h1
  simp at h1

theorem ink_append_left (a b : String) (c : Char) (hc : c ∈ a.data) :
    c ∈ (a ++ b).data := by
  rw [String.data_append]
  exact List.mem_append.mpr (Or.inl hc)

theorem ink_intercalate_go (sep : String) (c : Char) (as : List String) :
    ∀ acc : String, c ∈ acc.data → c ∈ (String.intercalate.go acc sep as).data := by
  induction as with
  | nil => intro acc h; simpa [String.intercalate.go] using h
  | cons a t ih =>
    intro acc h
    have hgo : String.intercalate.go acc sep (a :: t) =
        String.intercalate.go (acc ++ sep ++ a) sep t := by
      simp [String.intercalate.go]
    rw [hgo]
    exact ih _ (ink_append_left _ _ _ (ink_append_left _ _ _ h))

theorem ink_intercalate (sep line : String) (rest : List String) (c : Char)
    (hc : c ∈ line.data) : c ∈ (String.intercalate sep (line :: rest)).data := by
  show c ∈ (String.intercalate.go line sep rest).data
  exact ink_intercalate_go sep c rest line hc

theorem statusLine_has_ink (s : GitState) (line : String)
    (h : line ∈ statusLines s) :
    ∃ c, c ∈ line.data ∧ c.isWhitespace = false := by
  unfold statusLines stagedLines unstagedLines untrackedLines at h
  rcases List.mem_append.mp h with hSU | hT
  · rcases List.mem_append.mp hSU with hAD | hU
    · rcases List.mem_append.mp hAD with hA | hD
      · rcases List.mem_filterMap.mp hA with ⟨e, he, heq⟩
        split at heq
        · have hline : line = "A  " ++ e.1 := by
            exact (Option.some.inj heq).symm
          rw [hline]
          exact ⟨'A', ink_append_left _ _ _ (by decide), by decide⟩
        · split at heq
          · simp at heq
          · have hline : line = "M  " ++ e.1 := by
              exact (Option.some.inj heq).symm
            rw [hline]
            exact ⟨'M', ink_append_left _ _ _ (by decide), by decide⟩
      · rcases List.mem_filterMap.mp hD with ⟨e, he, heq⟩
        split at heq
        · simp at heq
        · have hline : line = "D  " ++ e.1 := by
            exact (Option.some.inj heq).symm
          rw [hline]
          exact ⟨'D', ink_append_left _ _ _ (by decide), by decide⟩
    · rcases List.mem_filterMap.mp hU with ⟨e, he, heq⟩
      split at heq
      · have hline : line = " D " ++ e.1 := by
          exact (Option.some.inj heq).symm
        rw [hline]
        exact ⟨'D', ink_append_left _ _ _ (by decide), by decide⟩
      · split at heq
        · simp at heq
        · have hline : line = " M " ++ e.1 := by
            exact (Option.some.inj heq).symm
          rw [hline]
          exact ⟨'M', ink_append_left _ _ _ (by decide), by decide⟩
  · rcases List.mem_filterMap.mp hT with ⟨e, he, heq⟩
    split at heq
    · simp at heq
    · have hline : line = "?? " ++ e.1 := by
        exact (Option.some.inj heq).symm
      rw [hline]
      exact ⟨'?', ink_append_left _ _ _ (by decide), by decide⟩

theorem is_clean_false_of_dirty (s : GitState)
    (hf : GitCmd.statusPorcelain ∉ s.failures) (hd : statusLines s ≠ []) :
    is_working_directory_clean s = (Except.ok false, s) := by
  rcases hsl : statusLines s with _ | ⟨line, rest⟩
  · exact absurd hsl hd
  obtain ⟨c, hc, hw⟩ := statusLine_has_ink s line (by
    rw [hsl]; exact List.mem_cons_self _ _)
  have h1 : rawGit GitCmd.statusPorcelain s =
      (Except.ok (String.intercalate "\n" (statusLines s)), s) := by
    unfold rawGit; rw [if_neg hf]
  have hmem : c ∈ (String.intercalate "\n" (statusLines s)).data := by
    rw [hsl]; exact ink_intercalate _ _ _ _ hc
  have hne : pyStrip (pyStrip (String.intercalate "\n" (statusLines s))) ≠ "" :=
    pyStrip_ne_empty _ c (mem_pyStrip _ c hmem hw) hw
  have hb : (pyStrip (pyStrip (String.intercalate "\n" (statusLines s))) == "") =
      false := beq_eq_false_iff_ne.mpr hne
  unfold is_working_directory_clean run_git_command
  rw [h1]
  dsimp only
  rw [hb]

/-- Claim C8: on a clean repository, get_commit_hash returns exactly the
hash get_most_recent_commit_hash returns (wrapped in some), both leave the
state unchanged, so repeating either call yields the same value; on a dirty
repository get_commit_hash returns none without raising. -/
theorem get_commit_hash_spec (s : GitState) (hf : s.failures = []) :
    (∀ h, s.head = some h → pyStrip h = h → statusLines s = [] →
      get_commit_hash s = (Except.ok (some h), s) ∧
      get_most_recent_commit_hash s = (Except.ok h, s) ∧
      get_commit_hash (get_commit_hash s).2 = get_commit_hash s ∧
      get_most_recent_commit_hash (get_most_recent_commit_hash s).2 =
        get_most_recent_commit_hash s) ∧
    (statusLines s ≠ [] → get_commit_hash s = (Except.ok none, s)) := by
  constructor
  · intro h hh hws hcl
    have hmr : get_most_recent_commit_hash s = (Except.ok h, s) := by
      unfold get_most_recent_commit_hash
      rw [run_head_some s h (by simp [hf]) hh, hws]
    have hgc : get_commit_hash s = (Except.ok (some h), s) := by
      unfold get_commit_hash
      rw [is_clean_of_statusLines s (by simp [hf]) hcl]
      dsimp only
      rw [run_head_some s h (by simp [hf]) hh, hws]
    refine ⟨hgc, hmr, ?_, ?_⟩
    · rw [hgc]
      exact hgc
    · rw [hmr]
      exact hmr
  · intro hd
    unfold get_commit_hash
    rw [is_clean_false_of_dirty s (by simp [hf]) hd]

/-- Witness for claim C8 at a concrete clean and a concrete dirty
repository. -/
theorem get_commit_hash_spec_witness :
    repoA.failures = [] ∧ repoDirty.failures = [] ∧ repoA.head = some "h0" ∧
    pyStrip "h0" = "h0" ∧ statusLines repoA = [] ∧ statusLines repoDirty ≠ [] ∧
    (get_commit_hash repoA = (Except.ok (some "h0"), repoA) ∧
      get_most_recent_commit_hash repoA = (Except.ok "h0", repoA) ∧
      get_commit_hash (get_commit_hash repoA).2 = get_commit_hash repoA ∧
      get_most_recent_commit_hash (get_most_recent_commit_hash repoA).2 =
        get_most_recent_commit_hash repoA) ∧
    get_commit_hash repoDirty = (Except.ok none, repoDirty) :=
  ⟨rfl, rfl, rfl, by decide, by decide, by decide,
    (get_commit_hash_spec repoA rfl).1 "h0" rfl (by decide) (by decide),
    (get_commit_hash_spec repoDirty rfl).2 (by decide)⟩

/-- Claim C9: the population step is total — its translation returns a
plain state, never an error — and when the underlying git add -u command
fails, for any injected reason, the failure is swallowed and the state
(including the isolated index) is left exactly at its baseline. -/
theorem add_tracked_swallow (env : Option String) (s : GitState) :
    add_tracked_files_to_temp_index env s = (run_git_command (GitCmd.addU env) s).2 ∧
    (GitCmd.addU env ∈ s.failures → add_tracked_files_to_temp_index env s = s) := by
  constructor
  · unfold add_tracked_files_to_temp_index
    rcases hx : run_git_command (GitCmd.addU env) s with ⟨r, s1⟩
    cases r <;> rfl
  · intro h
    have h0 : rawGit (GitCmd.addU env) s = (Except.error "injected failure", s) := by
      unfold rawGit; rw [if_pos h]
    have h1 : run_git_command (GitCmd.addU env) s =
        (Except.error ("Git command failed: " ++ "injected failure"), s) := by
      unfold run_git_command; rw [h0]
    unfold add_tracked_files_to_temp_index
    rw [h1]

/-- Repository where the environment makes git add -u fail. -/
def repoAddFail : GitState :=
  { repoA with failures := [GitCmd.addU (some ".git/index.tmp.abc.42")] }

/-- Witness for claim C9 at a repository whose add -u command fails. -/
theorem add_tracked_swallow_witness :
    GitCmd.addU (some ".git/index.tmp.abc.42") ∈ repoAddFail.failures ∧
    add_tracked_files_to_temp_index (some ".git/index.tmp.abc.42") repoAddFail =
      repoAddFail :=
  ⟨by decide,
    (add_tracked_swallow (some ".git/index.tmp.abc.42") repoAddFail).2 (by decide)⟩

/-- Repository in which the temporary-index path of the capture below is
already occupied by another file. -/
def repoCollide : GitState :=
  { repoA with tempIndexFiles := [(".git/index.tmp.abc.42", [("old", "o")])] }

/-- Counterexample to claim C6: in `repoCollide` the generated staging-area
path ".git/index.tmp.abc.42" already exists with content [("old", "o")],
yet _create_temporary_index succeeds and silently replaces that content
with a copy of the primary index instead of failing loudly. -/
theorem create_temp_index_overwrites :
    assocFind repoCollide.tempIndexFiles ".git/index.tmp.abc.42" =
      some [("old", "o")] ∧
    create_temporary_index "abc" 42 repoCollide =
      (Except.ok (".git/index.tmp.abc.42", some ".git/index.tmp.abc.42"),
        { repoCollide with
            tempIndexFiles := [(".git/index.tmp.abc.42", [("f", "x")])] }) ∧
    assocFind (create_temporary_index "abc" 42 repoCollide).2.tempIndexFiles
      ".git/index.tmp.abc.42" = some [("f", "x")] :=
  ⟨by decide, by rfl, by decide⟩

/-- Claim C6 amended: _create_temporary_index performs no collision check.
Whenever the primary index exists and has positive size, the operation
succeeds and copies the primary index bytes onto the generated path,
silently overwriting whatever file already sits there. -/
theorem create_temp_index_no_collision_check (instanceId : String) (pid : Nat)
    (s : GitState) (entries : List (String × String))
    (hf : GitCmd.revParseGitDir ∉ s.failures) (hidx : s.index = some entries) :
    create_temporary_index instanceId pid s =
      (Except.ok (tempIndexPathOf instanceId pid,
          some (tempIndexPathOf instanceId pid)),
        { s with tempIndexFiles :=
            assocSet s.tempIndexFiles (tempIndexPathOf instanceId pid) entries }) := by
  have h0 : rawGit GitCmd.revParseGitDir s = (Except.ok ".git", s) := by
    unfold rawGit; rw [if_neg hf]
  have h1 : run_git_command GitCmd.revParseGitDir s = (Except.ok ".git", s) := by
    unfold run_git_command; rw [h0]; rfl
  unfold create_temporary_index get_git_dir
  rw [h1]
  dsimp only
  rw [hidx]
  rfl

/-- Witness for claim C6 amended at the colliding repository. -/
theorem create_temp_index_no_collision_check_witness :
    GitCmd.revParseGitDir ∉ repoCollide.failures ∧
    repoCollide.index = some [("f", "x")] ∧
    create_temporary_index "abc" 42 repoCollide =
      (Except.ok (tempIndexPathOf "abc" 42, some (tempIndexPathOf "abc" 42)),
        { repoCollide with tempIndexFiles := (assocSet repoCollide.tempIndexFiles
            (tempIndexPathOf "abc" 42) [("f", "x")]) }) :=
  ⟨by decide, rfl,
    create_temp_index_no_collision_check "abc" 42 repoCollide [("f", "x")]
      (by decide) rfl⟩

/-- Repository with a single unstaged modification, so git status
--porcelain prints the line " M f" with its meaningful leading space. -/
def repoUnstaged : GitState :=
  { repoA with workdir := [("f", "y")] }

/-- Counterexample to claim C7: git status --porcelain outputs " M f"
here, a string with no trailing whitespace, so the claimed
trailing-whitespace-only trimming would return " M f" unchanged; the
executor instead returns "M f", having removed the leading space as well
(Python str.strip). -/
theorem run_git_command_strips_leading :
    rawGit GitCmd.statusPorcelain repoUnstaged = (Except.ok " M f", repoUnstaged) ∧
    specTrailingTrim " M f" = " M f" ∧
    run_git_command GitCmd.statusPorcelain repoUnstaged =
      (Except.ok "M f", repoUnstaged) ∧
    "M f" ≠ " M f" :=
  ⟨by rfl, by decide, by rfl, by decide⟩

/-- Claim C7 amended: on a zero exit code the executor returns standard
output with leading AND trailing whitespace removed (Python str.strip, not
a trailing-only trim); on a non-zero exit it raises RuntimeError carrying
the captured error text. -/
theorem run_git_command_spec (cmd : GitCmd) (s s1 : GitState) :
    (∀ out, rawGit cmd s = (Except.ok out, s1) →
      run_git_command cmd s = (Except.ok (pyStrip out), s1)) ∧
    (∀ e, rawGit cmd s = (Except.error e, s1) →
      run_git_command cmd s = (Except.error ("Git command failed: " ++ e), s1)) := by
  constructor
  · intro out h
    unfold run_git_command
    rw [h]
  · intro e h
    unfold run_git_command
    rw [h]

/-- Witness for claim C7 amended. -/
theorem run_git_command_spec_witness :
    rawGit GitCmd.revParseHead repoA = (Except.ok "h0", repoA) ∧
    run_git_command GitCmd.revParseHead repoA = (Except.ok (pyStrip "h0"), repoA) :=
  ⟨by rfl, (run_git_command_spec GitCmd.revParseHead repoA repoA).1 "h0" (by rfl)⟩

theorem find_insertNew_self {α : Type} (l : List (String × α)) (k : String) (v : α) :
    assocFind (assocInsertNew l k v) k = some ((assocFind l k).getD v) := by
  unfold assocInsertNew
  by_cases h : (assocFind l k).isSome
  · rw [if_pos h]
    obtain ⟨w, hw⟩ := Option.isSome_iff_exists.mp h
    rw [hw]
    rfl
  · rw [if_neg h]
    have hn : assocFind l k = none := Option.not_isSome_iff_eq_none.mp h
    rw [hn]
    unfold assocFind
    rw [if_pos rfl]
    rfl

theorem pyStrip_sandwich (c d : Char) (mid : List Char)
    (hc : c.isWhitespace = false) (hd : d.isWhitespace = false) :
    pyStrip ⟨c :: (mid ++ [d])⟩ = ⟨c :: (mid ++ [d])⟩ := by
  unfold pyStrip
  have h1 : (c :: (mid ++ [d])).dropWhile Char.isWhitespace = c :: (mid ++ [d]) := by
    rw [List.dropWhile_cons, if_neg (by simp [hc])]
  have h2 : (c :: (mid ++ [d])).reverse = d :: (mid.reverse ++ [c]) := by
    simp
  have h3 : (d :: (mid.reverse ++ [c])).dropWhile Char.isWhitespace =
      d :: (mid.reverse ++ [c]) := by
    rw [List.dropWhile_cons, if_neg (by simp [hd])]
  have h4 : (d :: (mid.reverse ++ [c])).reverse = c :: (mid ++ [d]) := by
    simp
  rw [show ((⟨c :: (mid ++ [d])⟩ : String).data) = c :: (mid ++ [d]) from rfl,
    h1, h2, h3, h4]

theorem pyStrip_of_shape (s : String) (c d : Char) (mid : List Char)
    (h : s.data = c :: (mid ++ [d])) (hc : c.isWhitespace = false)
    (hd : d.isWhitespace = false) : pyStrip s = s := by
  have he : s = ⟨c :: (mid ++ [d])⟩ := by
    cases s
    exact congrArg String.mk h
  rw [he]
  exact pyStrip_sandwich c d mid hc hd

theorem pyStrip_treeHashOf (l : List (String × String)) :
    pyStrip (treeHashOf l) = treeHashOf l := by
  apply pyStrip_of_shape _ 't' ')' (['r', 'e', 'e', '('] ++ (encodeEntries l).data)
  · unfold treeHashOf
    rw [String.data_append, String.data_append,
      show ("tree(" : String).data = ['t', 'r', 'e', 'e', '('] from rfl,
      show (")" : String).data = [')'] from rfl]
    simp
  · decide
  · decide

theorem pyStrip_commitHashOf (t : String) (par : Option String) :
    pyStrip (commitHashOf t par) = commitHashOf t par := by
  apply pyStrip_of_shape _ 'c' ')'
    (['o', 'm', 'm', 'i', 't', '('] ++ t.data ++ [','] ++ (par.getD "root").data)
  · unfold commitHashOf
    rw [String.data_append, String.data_append, String.data_append,
      String.data_append,
      show ("commit(" : String).data = ['c', 'o', 'm', 'm', 'i', 't', '('] from rfl,
      show (")" : String).data = [')'] from rfl,
      show ("," : String).data = [','] from rfl]
    simp
  · decide
  · decide

theorem addUUpdate_mem (entries workdir : List (String × String)) (p cont : String)
    (h : (p, cont) ∈ addUUpdate entries workdir) :
    (∃ c0, (p, c0) ∈ entries) ∧ assocFind workdir p = some cont := by
  unfold addUUpdate at h
  rcases List.mem_filterMap.mp h with ⟨e, he, heq⟩
  split at heq
  next c1 hfind =>
    have hp : e.1 = p := congrArg Prod.fst (Option.some.inj heq)
    have hcont : c1 = cont := congrArg Prod.snd (Option.some.inj heq)
    constructor
    · refine ⟨e.2, ?_⟩
      rw [← hp]
      simpa using he
    · rw [← hp, hfind, hcont]
  next hfind => simp at heq

theorem addUUpdate_find_none (entries workdir : List (String × String)) (p : String)
    (h : assocFind entries p = none) :
    assocFind (addUUpdate entries workdir) p = none := by
  induction entries with
  | nil => rfl
  | cons e rest ih =>
    have hne : ¬ e.1 = p := by
      intro hep
      unfold assocFind at h
      rw [if_pos hep] at h
      cases h
    have hrest : assocFind rest p = none := by
      unfold assocFind at h
      rw [if_neg hne] at h
      exact h
    unfold addUUpdate
    rw [List.filterMap_cons]
    split
    · exact ih hrest
    next v heq =>
      split at heq
      next c1 hfind =>
        rw [← Option.some.inj heq]
        unfold assocFind
        rw [if_neg hne]
        exact ih hrest
      next hfind => cases heq

theorem run_addU_some (P : String) (s : GitState)
    (hf : GitCmd.addU (some P) ∉ s.failures) :
    run_git_command (GitCmd.addU (some P)) s = (Except.ok "",
      { s with tempIndexFiles := (assocSet s.tempIndexFiles P (addUUpdate ((assocFind s.tempIndexFiles P).getD []) s.workdir)) }) := by
  have h0 : rawGit (GitCmd.addU (some P)) s = (Except.ok "",
      { s with tempIndexFiles := (assocSet s.tempIndexFiles P (addUUpdate ((assocFind s.tempIndexFiles P).getD []) s.workdir)) }) := by
    unfold rawGit
    rw [if_neg hf]
  unfold run_git_command
  rw [h0]
  rfl

theorem run_writeTree_some (P : String) (s : GitState)
    (hf : GitCmd.writeTree (some P) ∉ s.failures) :
    run_git_command (GitCmd.writeTree (some P)) s =
      (Except.ok (treeHashOf ((assocFind s.tempIndexFiles P).getD [])),
        { s with trees := (assocInsertNew s.trees (treeHashOf ((assocFind s.tempIndexFiles P).getD [])) ((assocFind s.tempIndexFiles P).getD [])) }) := by
  have h0 : rawGit (GitCmd.writeTree (some P)) s =
      (Except.ok (treeHashOf ((assocFind s.tempIndexFiles P).getD [])),
        { s with trees := (assocInsertNew s.trees (treeHashOf ((assocFind s.tempIndexFiles P).getD [])) ((assocFind s.tempIndexFiles P).getD [])) }) := by
    unfold rawGit
    rw [if_neg hf]
  unfold run_git_command
  rw [h0]
  dsimp only
  rw [pyStrip_treeHashOf]

theorem run_commitTree_ok (t : String) (par : Option String) (s : GitState)
    (hf : GitCmd.commitTree t par ∉ s.failures)
    (ht : (assocFind s.trees t).isSome = true)
    (hp : ∀ p, par = some p → (assocFind s.commits p).isSome = true) :
    run_git_command (GitCmd.commitTree t par) s =
      (Except.ok (commitHashOf t par),
        { s with commits := (assocInsertNew s.commits (commitHashOf t par) (t, par)) }) := by
  have h0 : rawGit (GitCmd.commitTree t par) s =
      (Except.ok (commitHashOf t par),
        { s with commits := (assocInsertNew s.commits (commitHashOf t par) (t, par)) }) := by
    unfold rawGit
    rw [if_neg hf]
    dsimp only
    obtain ⟨e2, he2⟩ := Option.isSome_iff_exists.mp ht
    rw [he2]
    cases par with
    | none => rfl
    | some p =>
      dsimp only
      rw [if_pos (hp p rfl)]
  unfold run_git_command
  rw [h0]
  dsimp only
  rw [pyStrip_commitHashOf]

theorem run_branchCreate_ok (n c : String) (s : GitState)
    (hf : GitCmd.branchCreate n c ∉ s.failures)
    (hn : assocFind s.branches n = none)
    (hc : (assocFind s.commits c).isSome = true) :
    run_git_command (GitCmd.branchCreate n c) s =
      (Except.ok "", { s with branches := (n, c) :: s.branches }) := by
  have h0 : rawGit (GitCmd.branchCreate n c) s =
      (Except.ok "", { s with branches := (n, c) :: s.branches }) := by
    unfold rawGit
    rw [if_neg hf]
    dsimp only
    rw [if_neg (by rw [hn]; simp), if_pos hc]
  unfold run_git_command
  rw [h0]
  rfl

theorem run_mktree (s : GitState) (hf : GitCmd.mktree ∉ s.failures) :
    run_git_command GitCmd.mktree s = (Except.ok (treeHashOf []),
      { s with trees := assocInsertNew s.trees (treeHashOf []) [] }) := by
  have h0 : rawGit GitCmd.mktree s = (Except.ok (treeHashOf []),
      { s with trees := assocInsertNew s.trees (treeHashOf []) [] }) := by
    unfold rawGit
    rw [if_neg hf]
  unfold run_git_command
  rw [h0]
  dsimp only
  rw [pyStrip_treeHashOf]

theorem run_readTree (t P : String) (s : GitState) (e : List (String × String))
    (hf : GitCmd.readTree t P ∉ s.failures) (ht : assocFind s.trees t = some e) :
    run_git_command (GitCmd.readTree t P) s = (Except.ok "",
      { s with tempIndexFiles := assocSet s.tempIndexFiles P e }) := by
  have h0 : rawGit (GitCmd.readTree t P) s = (Except.ok "",
      { s with tempIndexFiles := assocSet s.tempIndexFiles P e }) := by
    unfold rawGit
    rw [if_neg hf]
    dsimp only
    rw [ht]
  unfold run_git_command
  rw [h0]
  rfl

/-- Execution of _create_temporary_index when no command it uses fails and
the empty-tree object in the store is intact: it succeeds, the temporary
index file ends up holding the entries of the primary index (empty for a
missing/empty primary index), and the user-visible state and the branch and
commit stores are untouched. -/
theorem create_temp_exec (instanceId : String) (pid : Nat) (s : GitState)
    (hf : ∀ cmd, cmd ∈ s.failures → cmd = GitCmd.revParseHead)
    (het : emptyTreeOk s = true) :
    ∃ s2, create_temporary_index instanceId pid s =
      (Except.ok (tempIndexPathOf instanceId pid,
        some (tempIndexPathOf instanceId pid)), s2) ∧
      assocFind s2.tempIndexFiles (tempIndexPathOf instanceId pid) =
        some (indexEntries s) ∧
      s2.workdir = s.workdir ∧ s2.head = s.head ∧ s2.failures = s.failures ∧
      s2.branches = s.branches ∧ s2.commits = s.commits := by
  rcases hidx : s.index with _ | entries
  · have hmk : GitCmd.mktree ∉ s.failures := by
      intro hmem
      cases hf _ hmem
    have h1 : run_git_command GitCmd.revParseGitDir s = (Except.ok ".git", s) := by
      have h0 : rawGit GitCmd.revParseGitDir s = (Except.ok ".git", s) := by
        unfold rawGit
        rw [if_neg (by intro hmem; cases hf _ hmem)]
      unfold run_git_command
      rw [h0]
      rfl
    have hfind0 : assocFind (assocInsertNew s.trees (treeHashOf []) [])
        (treeHashOf []) = some [] := by
      rw [find_insertNew_self]
      rcases hfe : assocFind s.trees (treeHashOf []) with _ | e0
      · rfl
      · unfold emptyTreeOk at het
        rw [hfe] at het
        simp at het
        subst het
        rfl
    have hrt := run_readTree (treeHashOf [])
      (".git" ++ "/index.tmp." ++ instanceId ++ "." ++ toString pid)
      { s with trees := assocInsertNew s.trees (treeHashOf []) [] } []
      (by intro hmem; cases hf _ hmem) hfind0
    refine ⟨{ s with trees := assocInsertNew s.trees (treeHashOf []) [], tempIndexFiles := (assocSet s.tempIndexFiles (tempIndexPathOf instanceId pid) []) }, ?_, ?_, rfl, rfl, rfl, rfl, rfl⟩
    · unfold create_temporary_index get_git_dir
      rw [h1]
      dsimp only
      rw [hidx, run_mktree s hmk]
      dsimp only
      rw [hrt]
      rw [hidx]
      rfl
    · rw [assocFind_set_self]
      rw [indexEntries, hidx]
      rfl
  · have h := create_temp_index_no_collision_check instanceId pid s entries
      (by intro hmem; cases hf _ hmem) hidx
    refine ⟨{ s with tempIndexFiles := (assocSet s.tempIndexFiles (tempIndexPathOf instanceId pid) entries) }, h, ?_, rfl, rfl, rfl, rfl, rfl⟩
    rw [assocFind_set_self]
    rw [indexEntries, hidx]
    rfl

theorem rawGit_commitTree_inv (t : String) (par : Option String) (s s1 : GitState)
    (out : String)
    (h : rawGit (GitCmd.commitTree t par) s = (Except.ok out, s1)) :
    out = commitHashOf t par := by
  unfold rawGit at h
  split at h
  · exact absurd (congrArg Prod.fst h) (by simp)
  · dsimp only at h
    split at h
    next hft => exact absurd (congrArg Prod.fst h) (by simp)
    next e hft =>
      cases par with
      | none =>
        dsimp only at h
        have h2 := congrArg Prod.fst h
        simpa using h2.symm
      | some p =>
        dsimp only at h
        split at h
        next hps =>
          have h2 := congrArg Prod.fst h
          simpa using h2.symm
        next hps => exact absurd (congrArg Prod.fst h) (by simp)

theorem run_commitTree_inv (t : String) (par : Option String) (s s1 : GitState)
    (ch : String)
    (h : run_git_command (GitCmd.commitTree t par) s = (Except.ok ch, s1)) :
    ch = commitHashOf t par := by
  unfold run_git_command at h
  split at h
  next out s2 heq =>
    have hout := rawGit_commitTree_inv t par s s2 out heq
    have h2 := congrArg Prod.fst h
    simp at h2
    rw [← h2, hout, pyStrip_commitHashOf]
  next e s2 heq => exact absurd (congrArg Prod.fst h) (by simp)

theorem entries_tracked (s : GitState) :
    (∀ p cont, (p, cont) ∈ addUUpdate (indexEntries s) s.workdir →
      p ∈ trackedPaths s ∧ assocFind s.workdir p = some cont) ∧
    (∀ p, p ∈ untrackedPaths s →
      assocFind (addUUpdate (indexEntries s) s.workdir) p = none) := by
  constructor
  · intro p cont hmem
    obtain ⟨⟨c0, hc0⟩, hwp⟩ := addUUpdate_mem (indexEntries s) s.workdir p cont hmem
    constructor
    · unfold trackedPaths
      exact List.mem_map.mpr ⟨(p, c0), hc0, rfl⟩
    · exact hwp
  · intro p hp
    unfold untrackedPaths at hp
    have h2 := (List.mem_filter.mp hp).2
    have h3 : assocFind (indexEntries s) p = none := by
      simpa using h2
    exact addUUpdate_find_none _ _ _ h3

/-- Claim C4: whenever make_side_commit_main (the capture path of
make_side_commit) succeeds under normally working git commands and an
intact empty-tree object, the returned commit hash names a commit of a tree
whose entries all are paths tracked by the repository carrying their
current working-directory content (staged and unstaged edits included), and
no untracked path appears in that tree. -/
theorem make_side_commit_tracked_only (pre instanceId : String)
    (pid timestamp : Nat) (s s1 : GitState) (c : String)
    (hf : s.failures = []) (het : emptyTreeOk s = true)
    (hmain : make_side_commit_main pre instanceId pid timestamp s =
      (Except.ok c, s1)) :
    ∃ parent entries, c = commitHashOf (treeHashOf entries) parent ∧
      (∀ p cont, (p, cont) ∈ entries →
        p ∈ trackedPaths s ∧ assocFind s.workdir p = some cont) ∧
      (∀ p, p ∈ untrackedPaths s → assocFind entries p = none) := by
  obtain ⟨s2, hcr, htemp, hwd, hhead, hfail, hbr, hcm⟩ :=
    create_temp_exec instanceId pid s
      (by intro cmd hmem; rw [hf] at hmem; cases hmem) het
  unfold make_side_commit_main at hmain
  dsimp only at hmain
  rw [get_current_branch_or_commit_snd s] at hmain
  rw [hcr] at hmain
  dsimp only at hmain
  rcases htry : make_side_commit_try
    (branchNameOf pre (get_current_branch_or_commit s).1 timestamp pid)
    (some (tempIndexPathOf instanceId pid)) s2 with ⟨res, sF⟩
  rw [htry] at hmain
  dsimp only at hmain
  have hres : res = Except.ok c := congrArg Prod.fst hmain
  rw [hres] at htry
  unfold make_side_commit_try add_tracked_files_to_temp_index at htry
  rw [run_addU_some (tempIndexPathOf instanceId pid) s2
    (by simp [hfail, hf])] at htry
  rw [htemp, Option.getD_some, hwd] at htry
  dsimp only at htry
  rw [run_writeTree_some (tempIndexPathOf instanceId pid) _
    (by simp [hfail, hf])] at htry
  rw [assocFind_set_self, Option.getD_some] at htry
  dsimp only at htry
  split at htry
  next currentHead s5 heq5 =>
    unfold make_side_commit_finish at htry
    split at htry
    next e s6 heq6 => exact absurd (congrArg Prod.fst htry) (by simp)
    next ch s6 heq6 =>
      have hch := run_commitTree_inv _ _ _ _ _ heq6
      split at htry
      next e s7 heq7 => exact absurd (congrArg Prod.fst htry) (by simp)
      next o s7 heq7 =>
        have hc2 : ch = c := by
          have := congrArg Prod.fst htry
          simpa using this
        refine ⟨some currentHead, addUUpdate (indexEntries s) s.workdir,
          ?_, (entries_tracked s).1, (entries_tracked s).2⟩
        rw [← hc2, hch]
  next e s5 heq5 =>
    unfold make_side_commit_finish at htry
    split at htry
    next e2 s6 heq6 => exact absurd (congrArg Prod.fst htry) (by simp)
    next ch s6 heq6 =>
      have hch := run_commitTree_inv _ _ _ _ _ heq6
      split at htry
      next e2 s7 heq7 => exact absurd (congrArg Prod.fst htry) (by simp)
      next o s7 heq7 =>
        have hc2 : ch = c := by
          have := congrArg Prod.fst htry
          simpa using this
        refine ⟨none, addUUpdate (indexEntries s) s.workdir,
          ?_, (entries_tracked s).1, (entries_tracked s).2⟩
        rw [← hc2, hch]

/-- State of `repoDirty` after a successful capture: one new tree, one new
commit, one new branch; user-visible state untouched. -/
def repoDirtyAfter : GitState :=
  { workdir := [("f", "y"), ("u", "z")], index := some [("f", "x")],
    head := some "h0", branch := some "main",
    trees := [("tree(f:y)", [("f", "y")]), ("t0", [("f", "x")])],
    commits := [("commit(tree(f:y),h0)", ("tree(f:y)", some "h0")), ("h0", ("t0", none))],
    branches := [("p_main_side-commit_7_42", "commit(tree(f:y),h0)"), ("main", "h0")],
    tempIndexFiles := [], failures := [] }

/-- Witness for claim C4 at the concrete dirty repository: the captured
commit holds the modified tracked file with its working-tree content and
omits the untracked file "u". -/
theorem make_side_commit_tracked_only_witness :
    repoDirty.failures = [] ∧ emptyTreeOk repoDirty = true ∧
    make_side_commit_main "p" "abc" 42 7 repoDirty =
      (Except.ok "commit(tree(f:y),h0)", repoDirtyAfter) ∧
    (∃ parent entries,
      "commit(tree(f:y),h0)" = commitHashOf (treeHashOf entries) parent ∧
      (∀ p cont, (p, cont) ∈ entries →
        p ∈ trackedPaths repoDirty ∧ assocFind repoDirty.workdir p = some cont) ∧
      (∀ p, p ∈ untrackedPaths repoDirty → assocFind entries p = none)) :=
  ⟨rfl, by decide, by rfl,
    make_side_commit_tracked_only "p" "abc" 42 7 repoDirty repoDirtyAfter
      "commit(tree(f:y),h0)" rfl (by decide) (by rfl)⟩

theorem run_head_error (s : GitState)
    (h : s.head = none ∨ GitCmd.revParseHead ∈ s.failures) :
    ∃ e, run_git_command GitCmd.revParseHead s = (Except.error e, s) := by
  by_cases hmem : GitCmd.revParseHead ∈ s.failures
  · refine ⟨"Git command failed: " ++ "injected failure", ?_⟩
    have h0 : rawGit GitCmd.revParseHead s = (Except.error "injected failure", s) := by
      unfold rawGit; rw [if_pos hmem]
    unfold run_git_command
    rw [h0]
  · rcases h with h | h
    · exact ⟨_, run_head_none s hmem h⟩
    · exact absurd h hmem

theorem run_addU_exec (P : String) (s : GitState)
    (hf : GitCmd.addU (some P) ∉ s.failures) :
    ∃ s3, run_git_command (GitCmd.addU (some P)) s = (Except.ok "", s3) ∧
      assocFind s3.tempIndexFiles P =
        some (addUUpdate ((assocFind s.tempIndexFiles P).getD []) s.workdir) ∧
      s3.workdir = s.workdir ∧ s3.head = s.head ∧ s3.failures = s.failures ∧
      s3.branches = s.branches ∧ s3.commits = s.commits ∧ s3.trees = s.trees := by
  refine ⟨_, run_addU_some P s hf, ?_, rfl, rfl, rfl, rfl, rfl, rfl⟩
  exact assocFind_set_self _ _ _

theorem run_writeTree_exec (P : String) (s : GitState)
    (hf : GitCmd.writeTree (some P) ∉ s.failures) :
    ∃ s4, run_git_command (GitCmd.writeTree (some P)) s =
        (Except.ok (treeHashOf ((assocFind s.tempIndexFiles P).getD [])), s4) ∧
      (assocFind s4.trees
        (treeHashOf ((assocFind s.tempIndexFiles P).getD []))).isSome = true ∧
      s4.head = s.head ∧ s4.failures = s.failures ∧ s4.branches = s.branches ∧
      s4.commits = s.commits := by
  refine ⟨_, run_writeTree_some P s hf, ?_, rfl, rfl, rfl, rfl⟩
  rw [find_insertNew_self]
  rfl

theorem run_commitTree_exec (t : String) (s : GitState)
    (hf : GitCmd.commitTree t none ∉ s.failures)
    (ht : (assocFind s.trees t).isSome = true) :
    ∃ s5, run_git_command (GitCmd.commitTree t none) s =
        (Except.ok (commitHashOf t none), s5) ∧
      (assocFind s5.commits (commitHashOf t none)).isSome = true ∧
      s5.branches = s.branches ∧ s5.failures = s.failures := by
  refine ⟨_, run_commitTree_ok t none s hf ht (by intro p hp; cases hp),
    ?_, rfl, rfl⟩
  rw [find_insertNew_self]
  rfl

/-- Claim C5: on the capture path, when HEAD resolution is the only thing
that can fail — because the repository has no commits yet, or because the
environment makes exactly that command fail — the failure is absorbed:
make_side_commit_main succeeds and returns the hash of a commit with no
parent (a root commit). -/
theorem make_side_commit_root (pre instanceId : String) (pid timestamp : Nat)
    (s : GitState)
    (hf : ∀ cmd, cmd ∈ s.failures → cmd = GitCmd.revParseHead)
    (hh : s.head = none ∨ GitCmd.revParseHead ∈ s.failures)
    (het : emptyTreeOk s = true)
    (hbn : assocFind s.branches
      (branchNameOf pre (get_current_branch_or_commit s).1 timestamp pid) = none) :
    ∃ c t s1, make_side_commit_main pre instanceId pid timestamp s =
      (Except.ok c, s1) ∧ c = commitHashOf t none := by
  obtain ⟨s2, hcr, htemp, hwd, hhead2, hfail, hbr, hcm⟩ :=
    create_temp_exec instanceId pid s hf het
  obtain ⟨s3, haddU, htemp3, hwd3, hhead3, hfail3, hbr3, hcm3, htr3⟩ :=
    run_addU_exec (tempIndexPathOf instanceId pid) s2
      (by rw [hfail]; intro hm; cases hf _ hm)
  obtain ⟨s4, hwt, hts4, hhead4, hfail4, hbr4, hcm4⟩ :=
    run_writeTree_exec (tempIndexPathOf instanceId pid) s3
      (by rw [hfail3, hfail]; intro hm; cases hf _ hm)
  obtain ⟨e0, hhf⟩ := run_head_error s4 (by
    rw [hhead4, hhead3, hhead2, hfail4, hfail3, hfail]
    exact hh)
  obtain ⟨s5, hct, hfc5, hbr5, hfail5⟩ :=
    run_commitTree_exec (treeHashOf ((assocFind s3.tempIndexFiles
      (tempIndexPathOf instanceId pid)).getD [])) s4
      (by rw [hfail4, hfail3, hfail]; intro hm; cases hf _ hm) hts4
  have hbc : run_git_command (GitCmd.branchCreate
      (branchNameOf pre (get_current_branch_or_commit s).1 timestamp pid)
      (commitHashOf (treeHashOf ((assocFind s3.tempIndexFiles
        (tempIndexPathOf instanceId pid)).getD [])) none)) s5 =
      (Except.ok "", { s5 with branches :=
        (branchNameOf pre (get_current_branch_or_commit s).1 timestamp pid,
          commitHashOf (treeHashOf ((assocFind s3.tempIndexFiles
            (tempIndexPathOf instanceId pid)).getD [])) none) :: s5.branches }) := by
    apply run_branchCreate_ok
    · rw [hfail5, hfail4, hfail3, hfail]
      intro hm
      cases hf _ hm
    · rw [hbr5, hbr4, hbr3, hbr]
      exact hbn
    · exact hfc5
  refine ⟨commitHashOf (treeHashOf ((assocFind s3.tempIndexFiles
      (tempIndexPathOf instanceId pid)).getD [])) none,
    treeHashOf ((assocFind s3.tempIndexFiles
      (tempIndexPathOf instanceId pid)).getD []),
    cleanup_temporary_index (tempIndexPathOf instanceId pid) { s5 with branches := ((branchNameOf pre (get_current_branch_or_commit s).1 timestamp pid, commitHashOf (treeHashOf ((assocFind s3.tempIndexFiles (tempIndexPathOf instanceId pid)).getD [])) none) :: s5.branches) }, ?_, rfl⟩
  unfold make_side_commit_main
  dsimp only
  rw [get_current_branch_or_commit_snd s, hcr]
  dsimp only
  unfold make_side_commit_try add_tracked_files_to_temp_index
  rw [haddU]
  dsimp only
  rw [hwt]
  dsimp only
  rw [hhf]
  dsimp only
  unfold make_side_commit_finish
  rw [hct]
  dsimp only
  rw [hbc]

/-- Witness for claim C5 at a fresh repository with no commits: the
capture succeeds and produces a parentless (root) commit. -/
theorem make_side_commit_root_witness :
    repoEmpty.head = none ∧ emptyTreeOk repoEmpty = true ∧
    assocFind repoEmpty.branches
      (branchNameOf "p" (get_current_branch_or_commit repoEmpty).1 7 42) = none ∧
    (∃ c t s1, make_side_commit_main "p" "abc" 42 7 repoEmpty =
      (Except.ok c, s1) ∧ c = commitHashOf t none) :=
  ⟨rfl, by decide, by decide,
    make_side_commit_root "p" "abc" 42 7 repoEmpty
      (by intro cmd hm; cases hm) (Or.inl rfl) (by decide) (by decide)⟩

end Codelog
